import Mathlib

/-!
Verification development for the Pulsar DAW editor plugin
(Far-Beyond-Pulsar/Plugin_DAW).

The repository ships the host-integration glue (`src/lib.rs`: plugin
metadata, file-type registration with the default `.pdaw` project content,
editor creation and the editor-instance wrapper).  The audio-engine core
(transport, automation curves, mixing graph, command channel) lives in the
`daw_editor` module, which is not part of the published sources; those
parts are modelled here from the specification, each such definition
carrying a doc comment that says so.  Samples are modelled as exact
rationals together with an explicit non-finite marker (standing for the
IEEE NaN/infinity values the spec talks about).
-/

namespace Daw

/-- A single audio sample value.  `fin q` is a finite sample with exact
value `q`; `nonfinite` stands for any IEEE NaN or infinity produced by a
stage of the pipeline. -/
inductive SVal where
  | nonfinite : SVal
  | fin : ℚ → SVal
deriving DecidableEq, Repr

/-- A sample is finite when it is not the NaN/infinity marker. -/
def SVal.isFinite : SVal → Prop
  | .nonfinite => False
  | .fin _ => True

instance : DecidablePred SVal.isFinite := fun s => by
  cases s <;> simp [SVal.isFinite] <;> infer_instance

/-- Sample addition: adding anything to a non-finite sample is non-finite,
as with IEEE arithmetic. -/
def SVal.add : SVal → SVal → SVal
  | .fin a, .fin b => .fin (a + b)
  | _, _ => .nonfinite

/-- Scaling a sample by a finite gain. -/
def SVal.scale : SVal → ℚ → SVal
  | .fin a, g => .fin (a * g)
  | .nonfinite, _ => .nonfinite

instance : Zero SVal := ⟨.fin 0⟩

instance : Add SVal := ⟨SVal.add⟩

instance : AddCommMonoid SVal where
  add := SVal.add
  zero := .fin 0
  add_assoc a b c := by
    show (a.add b).add c = a.add (b.add c)
    cases a <;> cases b <;> cases c <;> simp [SVal.add, add_assoc]
  zero_add a := by
    show (SVal.fin 0).add a = a
    cases a <;> simp [SVal.add]
  add_zero a := by
    show a.add (SVal.fin 0) = a
    cases a <;> simp [SVal.add]
  add_comm a b := by
    show a.add b = b.add a
    cases a <;> cases b <;> simp [SVal.add, add_comm]
  nsmul := nsmulRec
  nsmul_zero := fun _ => rfl
  nsmul_succ := fun _ _ => rfl

theorem SVal.fin_add_fin (a b : ℚ) : (SVal.fin a) + (SVal.fin b) = SVal.fin (a + b) := rfl

/-! ## Automation curves (§3, §4.2 of the spec) -/

/-- Interpolation kinds available on a control point. -/
inductive InterpKind where
  | step
  | linear
  | smooth
deriving DecidableEq, Repr

/-- One automation control point: a time (sample position, exact), a value
and the interpolation kind used towards the next point. -/
structure ControlPoint where
  time : ℚ
  value : ℚ
  kind : InterpKind
deriving DecidableEq, Repr

/-- Modelled from the spec: an Automation Curve (§3) — a target parameter
identifier plus an ordered sequence of control points, strictly increasing
in time.  The engine sources holding this type are not in the published
tree. -/
structure AutomationCurve where
  target : String
  points : List ControlPoint
deriving DecidableEq, Repr

/-- Modelled from the spec (§4.2): interpolation between the bracketing
pair of control points.  `step` holds the left value, `linear`
interpolates linearly, `smooth` uses a cubic (Hermite smoothstep,
Catmull-Rom-class) ease between the two values. -/
def interp (p q : ControlPoint) (t : ℚ) : ℚ :=
  match p.kind with
  | .step => p.value
  | .linear => p.value + (q.value - p.value) * ((t - p.time) / (q.time - p.time))
  | .smooth =>
    let s := (t - p.time) / (q.time - p.time)
    p.value + (q.value - p.value) * (s * s * (3 - 2 * s))

/-- Modelled from the spec (§4.2): walk the control points to find the
bracketing pair; past the final point the last value is held.  `p` is the
last point seen to the left.  (The spec asks for a binary search; the model
scans, which is extensionally the same evaluation.) -/
def segEval (p : ControlPoint) : List ControlPoint → ℚ → ℚ
  | [], _ => p.value
  | q :: ps, t => if t ≤ q.time then interp p q t else segEval q ps t

/-- Modelled from the spec (§4.2): `value_at(time)` — evaluate an
Automation Curve at an arbitrary time; before the first point the first
value is held, after the last the last value is held. -/
def value_at (c : AutomationCurve) (t : ℚ) : ℚ :=
  match c.points with
  | [] => 0
  | p :: ps => if t ≤ p.time then p.value else segEval p ps t

/-! ## Transport (§3, §4.1 of the spec) -/

/-- A contiguous sample range `[start, start + len)`. -/
structure TimeRange where
  start : ℕ
  len : ℕ
deriving DecidableEq, Repr

/-- Modelled from the spec (§3): the Transport — musical clock state.
Positions are sample positions. -/
structure Transport where
  tempo : ℚ
  timeSigNum : ℕ
  timeSigDen : ℕ
  loopEnabled : Bool
  loopStart : ℕ
  loopEnd : ℕ
  metronomeEnabled : Bool
  position : ℕ
  playing : Bool
deriving DecidableEq, Repr

/-- Modelled from the spec (§4.1): `tick(block_size)` advances the
position by `block_size` samples, honoring the loop: when the block
straddles `loop_end` with the loop enabled, the block is split into the
range up to `loop_end` and a range starting back at `loop_start` carrying
the remainder sample-exactly.  Returns the advanced transport together
with the sample range(s) covered by this block. -/
def tick (t : Transport) (blockSize : ℕ) : Transport × List TimeRange :=
  if t.loopEnabled ∧ t.loopStart ≤ t.position ∧ t.position < t.loopEnd ∧
      t.loopEnd < t.position + blockSize then
    let firstLen := t.loopEnd - t.position
    let rem := blockSize - firstLen
    ({ t with position := t.loopStart + rem },
     [⟨t.position, firstLen⟩, ⟨t.loopStart, rem⟩])
  else
    ({ t with position := t.position + blockSize }, [⟨t.position, blockSize⟩])

/-! ## Project data model (§3 of the spec, default content from
`src/lib.rs` `file_types`) -/

/-- Modelled from the spec (§3): a Send — a weighted audio path to a
target track. -/
structure Send where
  target : ℕ
  level : ℚ
deriving DecidableEq, Repr

/-- Modelled from the spec (§3): a Clip — a source reference plus a
placement on the track timeline.  Times are sample positions. -/
structure Clip where
  id : ℕ
  source : ℕ
  start : ℕ
  duration : ℕ
  offset : ℕ
  gain : ℚ
deriving DecidableEq, Repr

/-- Track type, as in the default `.pdaw` content of `src/lib.rs`. -/
inductive TrackType where
  | audio
  | bus
  | master
deriving DecidableEq, Repr

/-- Modelled from the spec (§3) with the field set of the `master_track`
object in the default `.pdaw` content of `src/lib.rs` (id, name, type,
volume, pan, muted, solo, armed, color, clips, automation, sends). -/
structure Track where
  id : ℕ
  name : String
  trackType : TrackType
  volume : ℚ
  pan : ℚ
  muted : Bool
  solo : Bool
  armed : Bool
  color : ℚ × ℚ × ℚ
  clips : List Clip
  automation : List AutomationCurve
  sends : List Send
deriving DecidableEq, Repr

/-- Modelled from the spec (§3) with the field set of the default `.pdaw`
content of `src/lib.rs`: name, sample rate, tracks, one Master Track, one
Transport.  `sources` is the audio-asset store the engine reads clip
samples from (an external collaborator at the spec's §6 boundary),
modelled as an association list from source handle to sample data. -/
structure Project where
  name : String
  sampleRate : ℚ
  tracks : List Track
  masterTrack : Track
  transport : Transport
  sources : List (ℕ × List SVal)
deriving DecidableEq, Repr

/-- The `master_track` object of the default `.pdaw` content registered by
`file_types` in `src/lib.rs` (lines 88-101). -/
def defaultMasterTrack : Track :=
  { id := 0
    name := "Master"
    trackType := .master
    volume := 4 / 5
    pan := 0
    muted := false
    solo := false
    armed := false
    color := (1 / 2, 1 / 2, 1 / 2)
    clips := []
    automation := []
    sends := [] }

/-- The default `.pdaw` project content registered by `file_types` in
`src/lib.rs` (lines 73-102): name "New Project", sample rate 48000,
no tracks, a default transport, and the master track with id 0. -/
def defaultProject : Project :=
  { name := "New Project"
    sampleRate := 48000
    tracks := []
    masterTrack := defaultMasterTrack
    transport :=
      { tempo := 120
        timeSigNum := 4
        timeSigDen := 4
        loopEnabled := false
        loopStart := 0
        loopEnd := 0
        metronomeEnabled := false
        position := 0
        playing := false }
    sources := [] }

/-! ## Command channel (§4.5, §7 of the spec) -/

/-- Parameters settable through a SetTrackParam command (§4.5). -/
inductive TrackParam where
  | volume (v : ℚ)
  | pan (v : ℚ)
  | muted (b : Bool)
  | solo (b : Bool)
  | armed (b : Bool)
deriving DecidableEq, Repr

/-- Modelled from the spec (§4.5): the Command vocabulary of the control
side. -/
inductive Command where
  | addTrack (t : Track)
  | removeTrack (id : ℕ)
  | addClip (trackId : ℕ) (c : Clip)
  | removeClip (trackId : ℕ) (clipId : ℕ)
  | setTrackParam (trackId : ℕ) (prm : TrackParam)
  | addSend (src : ℕ) (tgt : ℕ) (level : ℚ)
  | removeSend (src : ℕ) (tgt : ℕ)
  | setTempo (t : ℚ)
  | setLoop (enabled : Bool) (ls : ℕ) (le : ℕ)
  | seek (pos : ℕ)
  | play
  | stop
deriving DecidableEq, Repr

/-- Modelled from the spec (§7): validation errors a Command can be
rejected with. -/
inductive CmdError where
  | unknownTrack (id : ℕ)
  | duplicateTrackId (id : ℕ)
  | sendCycle (src : ℕ) (tgt : ℕ)
  | invalidParam
  | nonPositiveDuration
  | cannotRemoveMaster
  | badLoopRange
deriving DecidableEq, Repr

/-- Whether a track id refers to an existing track (the master included). -/
def trackExists (p : Project) (id : ℕ) : Bool :=
  id == p.masterTrack.id || p.tracks.any (fun t => t.id == id)

/-- Send targets of a given (non-master) track id. -/
def sendTargetsOf (p : Project) (id : ℕ) : List ℕ :=
  match p.tracks.find? (fun t => t.id == id) with
  | some t => t.sends.map Send.target
  | none => []

/-- Modelled from the spec (§3 invariant: Sends form a DAG): fuelled
reachability along Send edges, used to detect that adding a Send would
close a cycle. -/
def reaches (p : Project) : ℕ → ℕ → ℕ → Bool
  | 0, a, b => a == b
  | fuel + 1, a, b =>
    a == b || (sendTargetsOf p a).any (fun c => reaches p fuel c b)

/-- Parameter-range check for SetTrackParam (volume ≥ 0, pan in [−1, 1],
per the §3 invariants). -/
def paramOk (prm : TrackParam) : Option CmdError :=
  match prm with
  | .volume v => if v < 0 then some .invalidParam else none
  | .pan v => if v < -1 ∨ 1 < v then some .invalidParam else none
  | .muted _ => none
  | .solo _ => none
  | .armed _ => none

/-- Modelled from the spec (§4.5, §7): validate a Command against the
current project invariants; `none` means the Command is acceptable,
`some e` is the specific rejection. -/
def validate (p : Project) (c : Command) : Option CmdError :=
  match c with
  | .addTrack t =>
    if t.id == p.masterTrack.id || p.tracks.any (fun u => u.id == t.id) then
      some (.duplicateTrackId t.id)
    else if t.volume < 0 then some .invalidParam else none
  | .removeTrack id =>
    if id == p.masterTrack.id then some .cannotRemoveMaster
    else if trackExists p id then none else some (.unknownTrack id)
  | .addClip trackId c =>
    if !trackExists p trackId then some (.unknownTrack trackId)
    else if c.duration == 0 then some .nonPositiveDuration else none
  | .removeClip trackId _ =>
    if trackExists p trackId then none else some (.unknownTrack trackId)
  | .setTrackParam trackId prm =>
    if !trackExists p trackId then some (.unknownTrack trackId)
    else paramOk prm
  | .addSend src tgt _ =>
    if !trackExists p src then some (.unknownTrack src)
    else if !trackExists p tgt then some (.unknownTrack tgt)
    else if reaches p (p.tracks.length + 1) tgt src then some (.sendCycle src tgt)
    else none
  | .removeSend src tgt =>
    if !trackExists p src then some (.unknownTrack src)
    else if !trackExists p tgt then some (.unknownTrack tgt)
    else none
  | .setTempo t => if t ≤ 0 then some .invalidParam else none
  | .setLoop enabled ls le =>
    if enabled ∧ le < ls then some .badLoopRange else none
  | .seek _ => none
  | .play => none
  | .stop => none

/-- Apply one SetTrackParam to a track when its id matches. -/
def setParamIf (id : ℕ) (prm : TrackParam) (t : Track) : Track :=
  if t.id == id then
    match prm with
    | .volume v => { t with volume := v }
    | .pan v => { t with pan := v }
    | .muted b => { t with muted := b }
    | .solo b => { t with solo := b }
    | .armed b => { t with armed := b }
  else t

/-- Modelled from the spec (§4.5): the state change a validated Command
performs.  Called only after `validate` accepted the Command. -/
def applyCore (p : Project) (c : Command) : Project :=
  match c with
  | .addTrack t => { p with tracks := p.tracks ++ [t] }
  | .removeTrack id => { p with tracks := p.tracks.filter (fun t => t.id != id) }
  | .addClip trackId c =>
    { p with tracks := p.tracks.map (fun t =>
        if t.id == trackId then { t with clips := t.clips ++ [c] } else t) }
  | .removeClip trackId clipId =>
    { p with tracks := p.tracks.map (fun t =>
        if t.id == trackId then
          { t with clips := t.clips.filter (fun cl => cl.id != clipId) }
        else t) }
  | .setTrackParam trackId prm =>
    { p with
      tracks := p.tracks.map (setParamIf trackId prm)
      masterTrack := setParamIf trackId prm p.masterTrack }
  | .addSend src tgt level =>
    { p with tracks := p.tracks.map (fun t =>
        if t.id == src then { t with sends := t.sends ++ [⟨tgt, level⟩] } else t) }
  | .removeSend src tgt =>
    { p with tracks := p.tracks.map (fun t =>
        if t.id == src then
          { t with sends := t.sends.filter (fun s => s.target != tgt) }
        else t) }
  | .setTempo t => { p with transport := { p.transport with tempo := t } }
  | .setLoop enabled ls le =>
    { p with transport :=
        { p.transport with loopEnabled := enabled, loopStart := ls, loopEnd := le } }
  | .seek pos => { p with transport := { p.transport with position := pos } }
  | .play => { p with transport := { p.transport with playing := true } }
  | .stop => { p with transport := { p.transport with playing := false } }

/-- Modelled from the spec (§4.5, §6): `submit`-time application — a
Command is validated first; an invalid Command is rejected with its
specific error and performs no state change at all. -/
def applyCommand (p : Project) (c : Command) : Except CmdError Project :=
  match validate p c with
  | some e => .error e
  | none => .ok (applyCore p c)

/-- The project state after a Command is processed: unchanged when the
Command was rejected. -/
def applyOrKeep (p : Project) (c : Command) : Project :=
  match applyCommand p c with
  | .ok p2 => p2
  | .error _ => p

/-! ## Block rendering (§4.3, §4.4 of the spec) -/

/-- Modelled from the spec (§4.4 failure semantics): read one sample of an
audio source; a missing source, or a read past the end of the data,
renders silence. -/
def sourceSample (sources : List (ℕ × List SVal)) (sid : ℕ) (i : ℕ) : SVal :=
  match sources.find? (fun kv => kv.1 == sid) with
  | some kv => kv.2.getD i (SVal.fin 0)
  | none => SVal.fin 0

/-- Modelled from the spec (§4.3): the contribution of one Clip at
absolute sample position `i` — the source sample offset by the clip's
trim, scaled by the clip's gain; silence outside the clip's placement. -/
def clipSample (sources : List (ℕ × List SVal)) (c : Clip) (i : ℕ) : SVal :=
  if c.start ≤ i ∧ i < c.start + c.duration then
    (sourceSample sources c.source (c.offset + (i - c.start))).scale c.gain
  else SVal.fin 0

/-- Modelled from the spec (§4.3): sum of all clip contributions of a
track at position `i` (silence where no clip covers the sample). -/
def clipMix (sources : List (ℕ × List SVal)) (t : Track) (i : ℕ) : SVal :=
  (t.clips.map (fun c => clipSample sources c i)).sum

/-- Modelled from the spec (§4.3): the automation-modulated volume of a
track, re-evaluated once at block start and held constant across the
block — the curve targeting "volume" when present, the static volume
otherwise. -/
def effVolume (t : Track) (blockStart : ℕ) : ℚ :=
  match t.automation.find? (fun a => a.target == "volume") with
  | some curve => value_at curve (blockStart : ℚ)
  | none => t.volume

/-- Whether any track is soloed (§4.3 solo semantics). -/
def soloActive (tracks : List Track) : Bool :=
  tracks.any Track.solo

/-- Modelled from the spec (§4.3, §4.4): the output of one track at
position `i`, with `blockStart` the automation evaluation time.  The
track mixes its own clips with the Send contributions it receives from
other tracks (buses receive only Sends), then applies mute/solo and the
automation-modulated volume (Sends are taken post-fader).  `fuel` bounds
the Send-DAG depth; the spec guarantees Sends form a DAG, so a fuel of
`tracks.length` reaches every contribution. -/
def trackOut (sources : List (ℕ × List SVal)) (tracks : List Track)
    (blockStart : ℕ) : ℕ → Track → ℕ → SVal
  | 0, _, _ => SVal.fin 0
  | fuel + 1, t, i =>
    if t.muted || (soloActive tracks && !t.solo) then SVal.fin 0
    else
      (clipMix sources t i +
        (tracks.map (fun t2 =>
          ((t2.sends.filter (fun s => s.target == t.id)).map (fun s =>
            (trackOut sources tracks blockStart fuel t2 i).scale s.level)).sum)).sum).scale
        (effVolume t blockStart)

/-- Modelled from the spec (§4.4 steps 3-5): the Master input at position
`i` — every non-Master track's direct output summed additively, plus every
Send targeting the Master — and the Master's own automation-modulated
volume applied on top. -/
def masterOut (p : Project) (blockStart : ℕ) (i : ℕ) : SVal :=
  ((p.tracks.map (fun t =>
      trackOut p.sources p.tracks blockStart p.tracks.length t i)).sum +
    (p.tracks.map (fun t =>
      ((t.sends.filter (fun s => s.target == p.masterTrack.id)).map (fun s =>
        (trackOut p.sources p.tracks blockStart p.tracks.length t i).scale s.level)).sum)).sum).scale
    (effVolume p.masterTrack blockStart)

/-- Modelled from the spec (§4.4 step 6): final-stage sample conditioning —
clip/limit to the valid output range [−1, 1] and replace any non-finite
sample with silence. -/
def sanitize (s : SVal) : SVal :=
  match s with
  | .nonfinite => SVal.fin 0
  | .fin q => SVal.fin (max (-1) (min 1 q))

/-- Render one contiguous sample range of the final output. -/
def renderRange (p : Project) (r : TimeRange) : List SVal :=
  (List.range r.len).map (fun j => sanitize (masterOut p r.start (r.start + j)))

/-- Modelled from the spec (§4.4, §6): `render_block(block_size)` — obtain
the sample range(s) for this block from the Transport (two ranges when the
block straddles the loop end) and render them back to back. -/
def render_block (p : Project) (blockSize : ℕ) : List SVal :=
  ((tick p.transport blockSize).2.map (renderRange p)).flatten

/-! ## Plugin glue (`src/lib.rs`) -/

/-- The editor-instance wrapper of `src/lib.rs` (`DawEditorWrapper`): the
panel entity is host-UI state outside this model; the stored file path is
kept. -/
structure DawEditorWrapper where
  filePath : String
deriving DecidableEq, Repr

/-- Storage for editor instances owned by the plugin (`EditorStorage` in
`src/lib.rs`). -/
structure EditorStorage where
  wrapper : DawEditorWrapper
deriving DecidableEq, Repr

/-- The error returned by `create_editor` for an unknown editor id
(`PluginError::EditorNotFound` in `src/lib.rs`). -/
inductive PluginError where
  | editorNotFound (editorId : String)
deriving DecidableEq, Repr

/-- The plugin state of `src/lib.rs` (`DawEditorPlugin`): the registry of
live editors keyed by integer id (a HashMap, modelled as an association
list) and the next id counter. -/
structure DawEditorPlugin where
  editors : List (ℕ × EditorStorage)
  nextEditorId : ℕ
deriving DecidableEq, Repr

/-- `DawEditorPlugin::default` in `src/lib.rs`: empty registry, counter 0. -/
def pluginDefault : DawEditorPlugin :=
  { editors := [], nextEditorId := 0 }

/-- HashMap-style insert on the association list: replaces the entry when
the key is present, otherwise adds a new entry. -/
def hmInsert (m : List (ℕ × EditorStorage)) (k : ℕ) (v : EditorStorage) :
    List (ℕ × EditorStorage) :=
  if m.any (fun kv => kv.1 == k) then
    m.map (fun kv => if kv.1 == k then (k, v) else kv)
  else (k, v) :: m

/-- `create_editor` of `src/lib.rs` (lines 116-150): for editor id
"daw-editor" it builds a wrapper for the file, takes the current
`next_editor_id` as the new instance's id, increments the counter, stores
the instance in the registry and returns Ok; any other editor id is
rejected with `EditorNotFound` and the state is untouched.  Returns the
updated plugin state alongside the result. -/
def create_editor (p : DawEditorPlugin) (editorId : String) (filePath : String) :
    DawEditorPlugin × Except PluginError ℕ :=
  if editorId = "daw-editor" then
    let id := p.nextEditorId
    ({ editors := hmInsert p.editors id ⟨⟨filePath⟩⟩
       nextEditorId := id + 1 }, .ok id)
  else (p, .error (.editorNotFound editorId))

/-- `DawEditorWrapper::is_dirty` of `src/lib.rs` (lines 187-189): the body
is the literal `false`. -/
def is_dirty (_ : DawEditorWrapper) : Bool :=
  false

/-! ## Concrete examples used to exercise the theorems -/

/-- A two-point automation curve used as a concrete evaluation example. -/
def demoCurve : AutomationCurve :=
  { target := "volume"
    points := [⟨10, 2, .linear⟩, ⟨20, 5, .step⟩] }

/-- A transport sitting at sample 900 of an enabled 0..1000 loop, the
loop-boundary scenario of §8 of the spec. -/
def demoTransport : Transport :=
  { tempo := 120
    timeSigNum := 4
    timeSigDen := 4
    loopEnabled := true
    loopStart := 0
    loopEnd := 1000
    metronomeEnabled := false
    position := 900
    playing := true }

/-- An audio track with one clip reading source 5. -/
def trackA : Track :=
  { id := 1
    name := "A"
    trackType := .audio
    volume := 1
    pan := 0
    muted := false
    solo := false
    armed := false
    color := (0, 0, 0)
    clips := [⟨10, 5, 0, 3, 0, 1⟩]
    automation := []
    sends := [] }

/-- A second audio track, silent. -/
def trackB : Track :=
  { id := 2
    name := "B"
    trackType := .audio
    volume := 1 / 2
    pan := 0
    muted := false
    solo := false
    armed := false
    color := (0, 0, 0)
    clips := []
    automation := []
    sends := [] }

/-- A small two-track project: track A plays source 5 (whose data contains
a non-finite sample), track B is empty. -/
def demoProject : Project :=
  { name := "Demo"
    sampleRate := 48000
    tracks := [trackA, trackB]
    masterTrack := defaultMasterTrack
    transport := defaultProject.transport
    sources := [(5, [SVal.fin 1, SVal.fin (1 / 2), SVal.nonfinite])] }

/-- The demo project after a Send from track A to track B was accepted. -/
def demoProjectAB : Project :=
  applyOrKeep demoProject (.addSend 1 2 (1 / 2))

/-! ## Helper lemmas -/

section

attribute [local semireducible] Rat.add Rat.mul Rat.sub Rat.inv

/-- Sanitized samples are always finite. -/
theorem sanitize_finite (s : SVal) : (sanitize s).isFinite := by
  cases s <;> simp [sanitize, SVal.isFinite]

/-- In a strictly time-increasing point list, every point's time is at
most the last point's time. -/
theorem chain_le_getLast : ∀ (l : List ControlPoint) (hl : l ≠ []),
    List.Chain' (fun a b => a.time < b.time) l →
    ∀ x ∈ l, x.time ≤ (l.getLast hl).time
  | [], hl, _, _, _ => absurd rfl hl
  | [a], _, _, x, hx => by
    simp only [List.mem_singleton] at hx
    subst hx
    simp [List.getLast]
  | a :: b :: m, _, hc, x, hx => by
    have h1 : a.time < b.time := (List.chain'_cons.mp hc).1
    have h2 : List.Chain' (fun u v => u.time < v.time) (b :: m) :=
      (List.chain'_cons.mp hc).2
    have hbm : (b :: m) ≠ [] := List.cons_ne_nil b m
    rw [List.getLast_cons hbm]
    rcases List.mem_cons.mp hx with hx | hx
    · subst hx
      exact le_of_lt (lt_of_lt_of_le h1
        (chain_le_getLast (b :: m) hbm h2 b (List.mem_cons_self b m)))
    · exact chain_le_getLast (b :: m) hbm h2 x hx

/-- When the evaluation time lies beyond every remaining point,
`segEval` holds the last point's value. -/
theorem segEval_last (p : ControlPoint) (ps : List ControlPoint) (t : ℚ)
    (h : ∀ q ∈ ps, q.time < t) :
    segEval p ps t = ((p :: ps).getLast (List.cons_ne_nil p ps)).value := by
  induction ps generalizing p with
  | nil => simp [segEval, List.getLast]
  | cons q ps ih =>
    have hq : q.time < t := h q (List.mem_cons_self q ps)
    rw [List.getLast_cons (List.cons_ne_nil q ps)]
    simp only [segEval]
    rw [if_neg (not_le.mpr hq)]
    exact ih q (fun r hr => h r (List.mem_cons_of_mem q hr))

/-- Summing a mapped list is invariant under permutation of the list. -/
theorem perm_map_sum {α β : Type _} [AddCommMonoid β] {l l2 : List α}
    (h : List.Perm l l2) (f : α → β) : (l.map f).sum = (l2.map f).sum :=
  List.Perm.sum_eq (List.Perm.map f h)

/-- `setParamIf` never changes the track id. -/
theorem setParamIf_id (id : ℕ) (prm : TrackParam) (t : Track) :
    (setParamIf id prm t).id = t.id := by
  unfold setParamIf
  split
  · cases prm <;> rfl
  · rfl

/-- Setting the same parameter to the same value twice is the same as
setting it once. -/
theorem setParamIf_idem (id : ℕ) (prm : TrackParam) (t : Track) :
    setParamIf id prm (setParamIf id prm t) = setParamIf id prm t := by
  cases prm <;> unfold setParamIf <;> by_cases h : t.id == id <;> simp [h]

/-! ## The claims -/

/-- C2: evaluating an Automation Curve with at least one control point
before the first point's time yields the first point's value, and after
the last point's time yields the last point's value (hold semantics at
both ends). -/
theorem value_at_hold (c : AutomationCurve) (hne : c.points ≠ [])
    (hs : List.Chain' (fun a b => a.time < b.time) c.points) (t : ℚ) :
    (t < (c.points.head hne).time → value_at c t = (c.points.head hne).value) ∧
    ((c.points.getLast hne).time < t → value_at c t = (c.points.getLast hne).value) := by
  obtain ⟨tgt, pts⟩ := c
  cases pts with
  | nil => exact absurd rfl hne
  | cons p ps =>
    constructor
    · intro ht
      have hle : t ≤ p.time := le_of_lt (by simpa using ht)
      simp [value_at, hle]
    · intro ht
      have hall : ∀ q ∈ p :: ps, q.time < t := fun q hq =>
        lt_of_le_of_lt
          (chain_le_getLast (p :: ps) (List.cons_ne_nil p ps) hs q hq)
          (by simpa using ht)
      have hp : ¬ t ≤ p.time := not_le.mpr (hall p (List.mem_cons_self p ps))
      simp only [value_at]
      rw [if_neg hp]
      simpa using segEval_last p ps t (fun q hq => hall q (List.mem_cons_of_mem p hq))

/-- C2 witness: on the concrete two-point curve, evaluation at time 0
(before the first point at time 10) yields the first value 2, and at time
100 (after the last point at time 20) yields the last value 5. -/
theorem value_at_hold_witness :
    value_at demoCurve 0 = 2 ∧ value_at demoCurve 100 = 5 :=
  ⟨(value_at_hold demoCurve (by decide)
      (by norm_num [demoCurve, List.chain'_cons]) 0).1 (by decide),
   (value_at_hold demoCurve (by decide)
      (by norm_num [demoCurve, List.chain'_cons]) 100).2 (by decide)⟩

/-- C3: when the loop is enabled, `loop_start ≤ position < loop_end`, and
the block reaches past `loop_end`, `tick(block_size)` splits the block
into the range `[position, loop_end)` followed by `[loop_start,
loop_start + remainder)`; the two lengths sum to exactly `block_size`, the
first range ends exactly at `loop_end` (no sample skipped or duplicated),
and the transport wraps to `loop_start` plus the remainder. -/
theorem tick_loop_wrap (t : Transport) (blockSize : ℕ)
    (hloop : t.loopEnabled = true) (h1 : t.loopStart ≤ t.position)
    (h2 : t.position < t.loopEnd) (h3 : t.loopEnd < t.position + blockSize) :
    (tick t blockSize).2 =
      [⟨t.position, t.loopEnd - t.position⟩,
       ⟨t.loopStart, blockSize - (t.loopEnd - t.position)⟩] ∧
    (t.loopEnd - t.position) + (blockSize - (t.loopEnd - t.position)) = blockSize ∧
    t.position + (t.loopEnd - t.position) = t.loopEnd ∧
    (tick t blockSize).1.position =
      t.loopStart + (blockSize - (t.loopEnd - t.position)) := by
  have hcond : t.loopEnabled = true ∧ t.loopStart ≤ t.position ∧
      t.position < t.loopEnd ∧ t.loopEnd < t.position + blockSize :=
    ⟨hloop, h1, h2, h3⟩
  refine ⟨?_, by omega, by omega, ?_⟩ <;>
    · simp only [tick]
      rw [if_pos (by simpa using hcond)]

/-- C3 witness: the §8 scenario — loop 0..1000, position 900, block 512 —
splits into [900, 1000) and [0, 412), lengths 100 + 412 = 512, with the
transport wrapped to position 412. -/
theorem tick_loop_wrap_witness :
    (tick demoTransport 512).2 = [⟨900, 100⟩, ⟨0, 412⟩] ∧
    100 + 412 = 512 ∧
    900 + 100 = 1000 ∧
    (tick demoTransport 512).1.position = 0 + 412 :=
  tick_loop_wrap demoTransport 512 (by decide) (by decide) (by decide) (by decide)

/-- C4: any Command that fails validation is rejected with the specific
validation error and the project state is left completely unchanged — no
Command is ever partially applied. -/
theorem invalid_command_rejected (p : Project) (c : Command)
    (h : validate p c ≠ none) :
    (∃ e, validate p c = some e ∧ applyCommand p c = Except.error e) ∧
    applyOrKeep p c = p := by
  cases hv : validate p c with
  | none => exact absurd hv h
  | some e =>
    refine ⟨⟨e, rfl, ?_⟩, ?_⟩ <;> simp [applyCommand, applyOrKeep, hv]

/-- C4 witness: on the concrete project where AddSend(A→B) was accepted,
AddSend(B→A) fails validation (it would close a Send cycle), is rejected
with an error, and the project is unchanged. -/
theorem invalid_command_rejected_witness :
    validate demoProject (.addSend 1 2 (1 / 2)) = none ∧
    validate demoProjectAB (.addSend 2 1 1) ≠ none ∧
    ((∃ e, validate demoProjectAB (.addSend 2 1 1) = some e ∧
        applyCommand demoProjectAB (.addSend 2 1 1) = Except.error e) ∧
      applyOrKeep demoProjectAB (.addSend 2 1 1) = demoProjectAB) :=
  ⟨by decide, by decide,
   invalid_command_rejected demoProjectAB (.addSend 2 1 1) (by decide)⟩

/-- C5: applying the same SetTrackParam Command twice in succession yields
the same project (hence Track) state as applying it once. -/
theorem setTrackParam_idempotent (p : Project) (id : ℕ) (prm : TrackParam) :
    applyOrKeep (applyOrKeep p (.setTrackParam id prm)) (.setTrackParam id prm) =
      applyOrKeep p (.setTrackParam id prm) := by
  cases hv : validate p (.setTrackParam id prm) with
  | some e => simp [applyOrKeep, applyCommand, hv]
  | none =>
    have happ : applyOrKeep p (.setTrackParam id prm) =
        applyCore p (.setTrackParam id prm) := by
      simp [applyOrKeep, applyCommand, hv]
    rw [happ]
    have hfun : ((fun t : Track => t.id == id) ∘ setParamIf id prm) =
        (fun t : Track => t.id == id) :=
      funext (fun t => by simp [Function.comp, setParamIf_id])
    have hex : trackExists (applyCore p (.setTrackParam id prm)) id =
        trackExists p id := by
      simp [trackExists, applyCore, List.any_map, hfun, setParamIf_id]
    have hv2 : validate (applyCore p (.setTrackParam id prm))
        (.setTrackParam id prm) = none := by
      simp only [validate, hex]
      simpa only [validate] using hv
    simp only [applyOrKeep, applyCommand, hv2]
    simp only [applyCore]
    rw [List.map_map]
    have hff : setParamIf id prm ∘ setParamIf id prm = setParamIf id prm :=
      funext (setParamIf_idem id prm)
    rw [hff, setParamIf_idem]

/-- C7: the Master Track is always present with the reserved id 0 and the
sample rate is fixed: the default project of `file_types` has a master
track with id 0 and sample rate 48000, and no Command processed through
the channel ever changes the sample rate or the master track's id. -/
theorem master_reserved_sample_rate_fixed :
    defaultProject.masterTrack.id = 0 ∧
    defaultProject.sampleRate = 48000 ∧
    ∀ (p : Project) (c : Command),
      (applyOrKeep p c).sampleRate = p.sampleRate ∧
      (applyOrKeep p c).masterTrack.id = p.masterTrack.id := by
  refine ⟨rfl, rfl, fun p c => ?_⟩
  cases hv : validate p c with
  | some e => simp [applyOrKeep, applyCommand, hv]
  | none =>
    have : applyOrKeep p c = applyCore p c := by
      simp [applyOrKeep, applyCommand, hv]
    rw [this]
    cases c <;> simp [applyCore, setParamIf_id]

/-- C1: every sample of a rendered block is finite — the final
conditioning stage replaces any non-finite intermediate sample with
silence, so NaN/infinity never reaches the output and the render call
always produces its block. -/
theorem render_block_finite (p : Project) (n : ℕ) :
    ∀ s ∈ render_block p n, s.isFinite := by
  intro s hs
  simp only [render_block, List.mem_flatten, List.mem_map] at hs
  obtain ⟨blk, ⟨r, hr, hblk⟩, hsblk⟩ := hs
  subst hblk
  simp only [renderRange, List.mem_map] at hsblk
  obtain ⟨j, hj, hsj⟩ := hsblk
  exact hsj ▸ sanitize_finite _

/-- C1 witness: the default project renders a block of two finite silent
samples; silence is a member of that block and it is finite. -/
theorem render_block_finite_witness :
    SVal.fin 0 ∈ render_block defaultProject 2 ∧ (SVal.fin 0).isFinite :=
  ⟨by decide, render_block_finite defaultProject 2 (SVal.fin 0) (by decide)⟩

/-- Permutation-invariance of `List.any`. -/
theorem perm_any_eq {α : Type _} {l l2 : List α} (h : List.Perm l l2)
    (f : α → Bool) : l.any f = l2.any f := by
  rw [Bool.eq_iff_iff]
  simp only [List.any_eq_true]
  constructor
  · rintro ⟨x, hx, hfx⟩
    exact ⟨x, h.mem_iff.mp hx, hfx⟩
  · rintro ⟨x, hx, hfx⟩
    exact ⟨x, h.mem_iff.mpr hx, hfx⟩

/-- A single track's output is unchanged when the project's track list is
permuted: the Send contributions it receives are a commutative sum over
the tracks. -/
theorem trackOut_perm (sources : List (ℕ × List SVal)) (l l2 : List Track)
    (h : List.Perm l l2) (bs : ℕ) :
    ∀ (fuel : ℕ) (t : Track) (i : ℕ),
      trackOut sources l bs fuel t i = trackOut sources l2 bs fuel t i := by
  intro fuel
  induction fuel with
  | zero => intro t i; rfl
  | succ fuel ih =>
    intro t i
    have hsolo : soloActive l = soloActive l2 := perm_any_eq h Track.solo
    simp only [trackOut, soloActive] at hsolo ⊢
    simp only [hsolo, ih]
    rw [perm_map_sum h]

/-- C6: `render_block` is order-independent in the track list — rendering
with any permutation of the non-Master tracks mixes to exactly the same
output block, because tracks and Sends are summed additively. -/
theorem render_block_order_independent (p : Project) (l2 : List Track)
    (h : List.Perm l2 p.tracks) (n : ℕ) :
    render_block { p with tracks := l2 } n = render_block p n := by
  have hm : ∀ bs i, masterOut { p with tracks := l2 } bs i = masterOut p bs i := by
    intro bs i
    have htro := trackOut_perm p.sources l2 p.tracks h bs
    have hlen : l2.length = p.tracks.length := h.length_eq
    simp only [masterOut]
    simp only [hlen, htro]
    rw [perm_map_sum h, perm_map_sum h]
  have hrr : renderRange { p with tracks := l2 } = renderRange p := by
    funext r
    simp only [renderRange, hm]
  simp only [render_block, hrr]

/-- C6 witness: swapping the two tracks of the demo project renders the
same 3-sample block. -/
theorem render_block_order_independent_witness :
    List.Perm [trackB, trackA] demoProject.tracks ∧
    render_block { demoProject with tracks := [trackB, trackA] } 3 =
      render_block demoProject 3 :=
  ⟨by decide,
   render_block_order_independent demoProject [trackB, trackA] (by decide) 3⟩

/-- C8: `create_editor` rejects every editor id other than "daw-editor"
with `EditorNotFound` carrying that id, leaving the registry untouched;
for "daw-editor" it succeeds and inserts exactly one new entry into the
registry (under the fresh `next_editor_id` key). -/
theorem create_editor_branches (p : DawEditorPlugin) (eid fp : String) :
    (eid ≠ "daw-editor" →
      create_editor p eid fp = (p, Except.error (.editorNotFound eid))) ∧
    (eid = "daw-editor" →
      p.editors.any (fun kv => kv.1 == p.nextEditorId) = false →
      create_editor p eid fp =
        ({ editors := (p.nextEditorId, ⟨⟨fp⟩⟩) :: p.editors
           nextEditorId := p.nextEditorId + 1 }, Except.ok p.nextEditorId) ∧
      (create_editor p eid fp).1.editors.length = p.editors.length + 1) := by
  constructor
  · intro hne
    simp [create_editor, hne]
  · intro he hfresh
    subst he
    constructor
    · simp [create_editor, hmInsert, hfresh]
    · simp [create_editor, hmInsert, hfresh]

/-- C8 witness: on the default plugin state, a foreign editor id is
rejected with `EditorNotFound` and the state is unchanged, while
"daw-editor" succeeds with id 0 and the registry grows by one entry. -/
theorem create_editor_branches_witness :
    create_editor pluginDefault "scene-editor" "game.pdaw" =
      (pluginDefault, Except.error (.editorNotFound "scene-editor")) ∧
    (create_editor pluginDefault "daw-editor" "game.pdaw" =
      ({ editors := [(0, ⟨⟨"game.pdaw"⟩⟩)], nextEditorId := 1 }, Except.ok 0) ∧
     (create_editor pluginDefault "daw-editor" "game.pdaw").1.editors.length =
       pluginDefault.editors.length + 1) :=
  ⟨(create_editor_branches pluginDefault "scene-editor" "game.pdaw").1 (by decide),
   (create_editor_branches pluginDefault "daw-editor" "game.pdaw").2 rfl (by decide)⟩

/-- C9: when every registered id is below `next_editor_id` (which holds
from the default state onwards), a successful `create_editor` hands out
exactly `next_editor_id`, increments the counter by one — so ids across a
sequence of calls are strictly increasing and unique — and the inserted
key is not already present, so no registry entry is ever overwritten; the
invariant is preserved by every call. -/
theorem create_editor_ids_fresh (p : DawEditorPlugin) (eid fp : String)
    (h : ∀ k ∈ p.editors.map Prod.fst, k < p.nextEditorId) :
    (∀ k ∈ (create_editor p eid fp).1.editors.map Prod.fst,
        k < (create_editor p eid fp).1.nextEditorId) ∧
    (∀ id, (create_editor p eid fp).2 = Except.ok id →
      id = p.nextEditorId ∧
      (create_editor p eid fp).1.nextEditorId = p.nextEditorId + 1 ∧
      ∀ kv ∈ p.editors, kv.1 ≠ id) := by
  by_cases he : eid = "daw-editor"
  · subst he
    have hfresh : p.editors.any (fun kv => kv.1 == p.nextEditorId) = false := by
      rw [List.any_eq_false]
      intro kv hkv
      have hlt := h kv.1 (List.mem_map.mpr ⟨kv, hkv, rfl⟩)
      simp only [beq_iff_eq]
      omega
    have hstate : create_editor p "daw-editor" fp =
        ({ editors := (p.nextEditorId, ⟨⟨fp⟩⟩) :: p.editors
           nextEditorId := p.nextEditorId + 1 }, Except.ok p.nextEditorId) := by
      simp [create_editor, hmInsert, hfresh]
    rw [hstate]
    constructor
    · intro k hk
      simp only [List.map_cons, List.mem_cons] at hk
      show k < p.nextEditorId + 1
      rcases hk with hk | hk
      · omega
      · have := h k hk
        omega
    · intro id hid
      have hid2 : id = p.nextEditorId := by
        simpa using hid.symm
      subst hid2
      refine ⟨rfl, rfl, fun kv hkv => ?_⟩
      have := h kv.1 (List.mem_map.mpr ⟨kv, hkv, rfl⟩)
      omega
  · have hstate : create_editor p eid fp = (p, Except.error (.editorNotFound eid)) := by
      simp [create_editor, he]
    rw [hstate]
    refine ⟨h, fun id hid => ?_⟩
    simp at hid

/-- C9 witness: from the default state, creating a "daw-editor" hands out
id 0, bumps the counter to 1, keeps the invariant, and overwrites
nothing. -/
theorem create_editor_ids_fresh_witness :
    (∀ k ∈ (create_editor pluginDefault "daw-editor" "a.pdaw").1.editors.map Prod.fst,
        k < (create_editor pluginDefault "daw-editor" "a.pdaw").1.nextEditorId) ∧
    (∀ id, (create_editor pluginDefault "daw-editor" "a.pdaw").2 = Except.ok id →
      id = pluginDefault.nextEditorId ∧
      (create_editor pluginDefault "daw-editor" "a.pdaw").1.nextEditorId =
        pluginDefault.nextEditorId + 1 ∧
      ∀ kv ∈ pluginDefault.editors, kv.1 ≠ id) :=
  create_editor_ids_fresh pluginDefault "daw-editor" "a.pdaw" (by decide)

/-- C10: `DawEditorWrapper::is_dirty` returns `false` for every wrapper
state, unconditionally. -/
theorem is_dirty_always_false : ∀ w : DawEditorWrapper, is_dirty w = false :=
  fun _ => rfl

end

end Daw
